import Mathlib

/-!
Shallow embedding of the misskey-webp-proxy transcoding pipeline
(src/client.rs, src/processor.rs, src/webp.rs, src/handler.rs, src/main.rs).

External library calls (the `image` crate decoders and resampler, `usvg`/`resvg`,
`reqwest`, Rust `std` string/IP parsing, and the native libwebp entry points) are
modelled either as explicit oracle parameters or, where concrete behaviour is
needed, as faithful Lean implementations of the documented library behaviour.
Everything else is translated directly from the Rust source.
-/

namespace MWProxy

/-! ## Basic data model (image crate types as used by the source) -/

/-- `image::RgbaImage`: width, height, row-major RGBA8 buffer. -/
structure RgbaImage where
  width : Nat
  height : Nat
  data : List UInt8
deriving DecidableEq, Repr, Inhabited

/-- `image::Delay` as used via `numer_denom_ms`: a rational milliseconds value. -/
structure Delay where
  numer : Nat
  denom : Nat
deriving DecidableEq, Repr, Inhabited

/-- `image::Frame`: buffer plus left/top offsets and a delay. -/
structure Frame where
  buffer : RgbaImage
  left : Nat
  top : Nat
  delay : Delay
deriving DecidableEq, Repr, Inhabited

/-- `DecodeResult` from src/processor.rs: the three-variant decoded-media union. -/
inductive DecodeResult where
  | Image (img : RgbaImage)
  | Movie (frames : List Frame)
  | TextFmt (txt : String)
deriving DecidableEq, Repr, Inhabited

/-- `ImageExt` from src/client.rs. -/
inductive ImageExt where
  | Png | Jpeg | Gif | Svg | Webp | Ico | Unknown
deriving DecidableEq, Repr, Inhabited

/-- `image::ImageFormat`, the sniffed-format enum returned by `image::guess_format`.
`Other` stands for the non-exhaustive enum's remaining/future variants, which fall
through the `_ => {}` arm in src/client.rs. -/
inductive ImageFormat where
  | Png | Jpeg | Gif | WebP | Pnm | Tiff | Tga | Dds | Bmp | Ico | Hdr
  | OpenExr | Farbfeld | Avif | Qoi | Other
deriving DecidableEq, Repr, Inhabited

instance {ε α : Type} [DecidableEq ε] [DecidableEq α] : DecidableEq (Except ε α) :=
  fun a b =>
    match a, b with
    | .error e, .error f =>
      if h : e = f then .isTrue (by rw [h]) else .isFalse (by simp [h])
    | .ok x, .ok y =>
      if h : x = y then .isTrue (by rw [h]) else .isFalse (by simp [h])
    | .error _, .ok _ => .isFalse (by simp)
    | .ok _, .error _ => .isFalse (by simp)

/-! ## Model of Rust `String::from_utf8_lossy`

Faithful implementation of the std lossy UTF-8 decoder: well-formed sequences are
decoded; each maximal invalid subpart is replaced by one U+FFFD, matching the
`Utf8Error::error_len` chunking std uses (an invalid leading byte consumes one
byte; a sequence broken at continuation byte k consumes the k valid bytes; a
truncated sequence at end of input yields a single U+FFFD). -/

def replacementChar : Char := Char.ofNat 0xFFFD

/-- Is `b` a UTF-8 continuation byte in `[lo, hi]`? -/
def contIn (lo hi b : Nat) : Bool := lo ≤ b && b ≤ hi

/-- One step of the lossy decoder, fuel-indexed (fuel bounds the input length). -/
def utf8LossyGo : Nat → List Nat → List Char
  | 0, _ => []
  | _, [] => []
  | fuel + 1, b0 :: rest =>
    if b0 ≤ 0x7F then
      Char.ofNat b0 :: utf8LossyGo fuel rest
    else if 0xC2 ≤ b0 && b0 ≤ 0xDF then
      match rest with
      | [] => [replacementChar]
      | b1 :: rest2 =>
        if contIn 0x80 0xBF b1 then
          Char.ofNat ((b0 - 0xC0) * 64 + (b1 - 0x80)) :: utf8LossyGo fuel rest2
        else
          replacementChar :: utf8LossyGo fuel (b1 :: rest2)
    else if (b0 = 0xE0 || (0xE1 ≤ b0 && b0 ≤ 0xEF)) then
      -- three-byte sequences; first-continuation range depends on b0
      let lo1 := if b0 = 0xE0 then 0xA0 else 0x80
      let hi1 := if b0 = 0xED then 0x9F else 0xBF
      match rest with
      | [] => [replacementChar]
      | b1 :: rest2 =>
        if contIn lo1 hi1 b1 then
          match rest2 with
          | [] => [replacementChar]
          | b2 :: rest3 =>
            if contIn 0x80 0xBF b2 then
              Char.ofNat ((b0 - 0xE0) * 4096 + (b1 - 0x80) * 64 + (b2 - 0x80)) ::
                utf8LossyGo fuel rest3
            else
              replacementChar :: utf8LossyGo fuel (b2 :: rest3)
        else
          replacementChar :: utf8LossyGo fuel (b1 :: rest2)
    else if 0xF0 ≤ b0 && b0 ≤ 0xF4 then
      -- four-byte sequences; first-continuation range depends on b0
      let lo1 := if b0 = 0xF0 then 0x90 else 0x80
      let hi1 := if b0 = 0xF4 then 0x8F else 0xBF
      match rest with
      | [] => [replacementChar]
      | b1 :: rest2 =>
        if contIn lo1 hi1 b1 then
          match rest2 with
          | [] => [replacementChar]
          | b2 :: rest3 =>
            if contIn 0x80 0xBF b2 then
              match rest3 with
              | [] => [replacementChar]
              | b3 :: rest4 =>
                if contIn 0x80 0xBF b3 then
                  Char.ofNat ((b0 - 0xF0) * 262144 + (b1 - 0x80) * 4096 +
                      (b2 - 0x80) * 64 + (b3 - 0x80)) :: utf8LossyGo fuel rest4
                else
                  replacementChar :: utf8LossyGo fuel (b3 :: rest4)
            else
              replacementChar :: utf8LossyGo fuel (b2 :: rest3)
        else
          replacementChar :: utf8LossyGo fuel (b1 :: rest2)
    else
      -- 0x80..=0xC1 and 0xF5..=0xFF: invalid leading byte, consume one byte
      replacementChar :: utf8LossyGo fuel rest

/-- Model of Rust std `String::from_utf8_lossy` over a byte buffer. -/
def utf8Lossy (bs : List UInt8) : String :=
  ⟨utf8LossyGo bs.length (bs.map (·.toNat))⟩

/-! ## Model of Rust std `IpAddr::from_str`

Used by `is_private_like` in src/client.rs. Std tries IPv4 first, then IPv6.
The std IPv4 parser requires exactly four decimal octets `0..=255` with no
leading zeros; the std IPv6 parser accepts up to eight 16-bit hex groups with at
most one `::` compression (standing for the missing groups, head+tail ≤ 7
groups) and an optional trailing dotted-quad occupying the last two groups. -/

/-- Split a character list at every occurrence of `sep` (like Rust `str::split(sep)`). -/
def splitOnCharList (sep : Char) : List Char → List (List Char)
  | [] => [[]]
  | c :: cs =>
    if c = sep then [] :: splitOnCharList sep cs
    else
      match splitOnCharList sep cs with
      | [] => [[c]]
      | h :: t => (c :: h) :: t

/-- Split a string at every occurrence of the character `sep`. -/
def splitOnChar (sep : Char) (s : String) : List String :=
  (splitOnCharList sep s.data).map (⟨·⟩)

/-- Split a character list at every (leftmost-first, non-overlapping) occurrence
of `"::"`. -/
def splitOnDoubleColonList : List Char → List (List Char)
  | ':' :: ':' :: cs => [] :: splitOnDoubleColonList cs
  | c :: cs =>
    match splitOnDoubleColonList cs with
    | [] => [[c]]
    | h :: t => (c :: h) :: t
  | [] => [[]]

/-- Split a string at every occurrence of `"::"`. -/
def splitOnDoubleColon (s : String) : List String :=
  (splitOnDoubleColonList s.data).map (⟨·⟩)

/-- Parse one IPv4 octet: 1-3 decimal digits, value ≤ 255, no leading zero. -/
def parseOctet (s : String) : Option Nat :=
  let cs := s.data
  if cs.length = 0 || cs.length > 3 then none
  else if !cs.all Char.isDigit then none
  else if cs.length > 1 && cs.headD 'x' = '0' then none
  else
    let v := cs.foldl (fun a c => a * 10 + (c.toNat - 48)) 0
    if v ≤ 255 then some v else none

/-- Parse a dotted-quad IPv4 literal. -/
def parseIpv4 (s : String) : Option (Nat × Nat × Nat × Nat) :=
  match (splitOnChar '.' s).map parseOctet with
  | [some a, some b, some c, some d] => some (a, b, c, d)
  | _ => none

def isHexDigitCh (c : Char) : Bool :=
  c.isDigit || ('a' ≤ c && c ≤ 'f') || ('A' ≤ c && c ≤ 'F')

def hexVal (c : Char) : Nat :=
  if c.isDigit then c.toNat - 48
  else if 'a' ≤ c && c ≤ 'f' then c.toNat - 87
  else c.toNat - 55

/-- Parse one IPv6 group: 1-4 hex digits. -/
def parseHexGroup (s : String) : Option Nat :=
  let cs := s.data
  if cs.length = 0 || cs.length > 4 then none
  else if !cs.all isHexDigitCh then none
  else some (cs.foldl (fun a c => a * 16 + hexVal c) 0)

/-- Parse a colon-separated run of IPv6 groups where the last piece may be a
dotted-quad IPv4 literal (which occupies two 16-bit groups). The empty string
parses as zero groups. Returns the list of 16-bit group values. -/
def parseGroupRun (allowV4Tail : Bool) (s : String) : Option (List Nat) :=
  if s = "" then some []
  else
    let pieces := splitOnChar ':' s
    let rec go : List String → Option (List Nat)
      | [] => some []
      | [p] =>
        match parseHexGroup p with
        | some g => some [g]
        | none =>
          if allowV4Tail then
            match parseIpv4 p with
            | some (a, b, c, d) => some [a * 256 + b, c * 256 + d]
            | none => none
          else none
      | p :: ps =>
        match parseHexGroup p with
        | some g => (go ps).map (g :: ·)
        | none => none
    go pieces

/-- Parse an IPv6 literal, returning its eight 16-bit groups. -/
def parseIpv6 (s : String) : Option (List Nat) :=
  match splitOnDoubleColon s with
  | [whole] =>
    match parseGroupRun true whole with
    | some gs => if gs.length = 8 then some gs else none
    | none => none
  | [l, r] =>
    match parseGroupRun false l, parseGroupRun true r with
    | some lg, some rg =>
      if lg.length + rg.length ≤ 7 then
        some (lg ++ List.replicate (8 - lg.length - rg.length) 0 ++ rg)
      else none
    | _, _ => none
  | _ => none

/-- Model of `std::net::IpAddr::from_str(s).is_ok()`. -/
def ipAddrParses (s : String) : Bool :=
  (parseIpv4 s).isSome || (parseIpv6 s).isSome

/-! ## URL model and format classifier (src/client.rs) -/

/-- `url::Host`: a parsed URL host component. -/
inductive Host where
  | Domain (s : String)
  | Ipv4 (a b c d : Nat)
  | Ipv6 (groups : List Nat)
deriving DecidableEq, Repr

/-- The parts of a `reqwest::Url` the pipeline inspects. -/
structure Url where
  host : Option Host
  path : String
deriving DecidableEq, Repr

/-- `get_image_ext` (src/client.rs lines 21-31): classify by the final
`.`-separated component of the URL path. -/
def get_image_ext (url : Url) : ImageExt :=
  match (splitOnChar '.' url.path).getLast? with
  | some "png" => ImageExt.Png
  | some "jpg" => ImageExt.Jpeg
  | some "jpeg" => ImageExt.Jpeg
  | some "jfif" => ImageExt.Jpeg
  | some "pjpeg" => ImageExt.Jpeg
  | some "pjp" => ImageExt.Jpeg
  | some "gif" => ImageExt.Gif
  | some "svg" => ImageExt.Svg
  | some "webp" => ImageExt.Webp
  | _ => ImageExt.Unknown

/-- `guess_format` (src/client.rs lines 33-88): map the sniffed container format
(`image::guess_format`, modelled by the `sniff` oracle) to an `ImageExt`,
falling back to `Svg` when sniffing fails or the variant is not matched. -/
def guess_format (sniff : List UInt8 → Except Unit ImageFormat) (buf : List UInt8) : ImageExt :=
  match sniff buf with
  | .ok .Png => ImageExt.Png
  | .ok .Jpeg => ImageExt.Jpeg
  | .ok .Gif => ImageExt.Gif
  | .ok .WebP => ImageExt.Webp
  | .ok .Pnm => ImageExt.Unknown
  | .ok .Tiff => ImageExt.Unknown
  | .ok .Tga => ImageExt.Unknown
  | .ok .Dds => ImageExt.Unknown
  | .ok .Bmp => ImageExt.Unknown
  | .ok .Ico => ImageExt.Ico
  | .ok .Hdr => ImageExt.Unknown
  | .ok .OpenExr => ImageExt.Unknown
  | .ok .Farbfeld => ImageExt.Unknown
  | .ok .Avif => ImageExt.Unknown
  | .ok .Qoi => ImageExt.Unknown
  | .ok .Other => ImageExt.Svg
  | .error _ => ImageExt.Svg

/-- `is_private_like` (src/client.rs lines 101-110): true when the URL host is a
literal IP address, a domain string that parses as an IP literal, or absent. -/
def is_private_like (url : Url) : Bool :=
  match url.host with
  | some (.Domain s) => ipAddrParses s
  | some (.Ipv4 _ _ _ _) => true
  | some (.Ipv6 _) => true
  | none => true

/-! ## Still/animation decoder (src/client.rs `download_image`, src/webp.rs decode) -/

/-- `x as u32` applied to an `i32` value: bit-reinterpreting cast. -/
def i32ToU32 (x : Int) : Nat := (x % (2 ^ 32)).toNat

/-- `ManagedWebpAnimDecoder::decode` (src/webp.rs lines 300-312): convert the
native-decoded `(buffer, cumulative timestamp)` pairs into frames whose delay is
`(timestamp - before_timestamp) as u32` milliseconds over denominator 1, with
`before_timestamp` starting at 0. -/
def webpAnimFrames : Int → List (RgbaImage × Int) → List Frame
  | _, [] => []
  | before, (buf, ts) :: rest =>
    { buffer := buf, left := 0, top := 0, delay := ⟨i32ToU32 (ts - before), 1⟩ } ::
      webpAnimFrames ts rest

/-- Oracles for the external decoding libraries driven by `download_image`:
the `image` crate decoders, the WebP animation probe, and the native animation
decoder's raw output (`decode_innternal`, a list of buffer/cumulative-timestamp
pairs, or the error of any failing native step). -/
structure Oracles where
  sniff : List UInt8 → Except Unit ImageFormat
  pngDecode : List UInt8 → Except String RgbaImage
  jpegDecode : List UInt8 → Except String RgbaImage
  gifDecode : List UInt8 → Except String (List Frame)
  icoDecode : List UInt8 → Except String RgbaImage
  webpProbe : List UInt8 → Except String Bool
  webpStill : List UInt8 → Except String RgbaImage
  animNative : List UInt8 → Except String (List (RgbaImage × Int))

/-- `decode_webp_anim` (src/webp.rs lines 359-362): decoder construction and the
per-frame native pulls are the `animNative` oracle; the timestamp differencing
is `webpAnimFrames`. -/
def decode_webp_anim (o : Oracles) (buf : List UInt8) : Except String (List Frame) :=
  match o.animNative buf with
  | .error e => .error e
  | .ok pairs => .ok (webpAnimFrames 0 pairs)

/-- The classification step inside `download_image` (src/client.rs lines
119-122): URL extension first, signature sniffing if that is `Unknown`. -/
def classify (o : Oracles) (url : Url) (buf : List UInt8) : ImageExt :=
  let ext := get_image_ext url
  if ext = ImageExt.Unknown then guess_format o.sniff buf else ext

/-- `download_image` (src/client.rs lines 112-170). `fetch` stands for the
combined `client.get(url).send()` + `resp.bytes()` network interaction; the
returned `Bool` records whether that network call was issued. -/
def download_image (o : Oracles) (fetch : Except String (List UInt8)) (url : Url) :
    Except String DecodeResult × Bool :=
  if is_private_like url then (.error "Cannot accept ipaddr", false)
  else
    match fetch with
    | .error e => (.error e, true)
    | .ok buf =>
      let r : Except String DecodeResult :=
        match classify o url buf with
        | .Png => (o.pngDecode buf).map DecodeResult.Image
        | .Jpeg => (o.jpegDecode buf).map DecodeResult.Image
        | .Gif => (o.gifDecode buf).map DecodeResult.Movie
        | .Svg => .ok (DecodeResult.TextFmt (utf8Lossy buf))
        | .Webp =>
          match o.webpProbe buf with
          | .error e => .error e
          | .ok true => (decode_webp_anim o buf).map DecodeResult.Movie
          | .ok false => (o.webpStill buf).map DecodeResult.Image
        | .Ico => (o.icoDecode buf).map DecodeResult.Image
        | .Unknown => .error "Not supported"
      (r, true)

/-! ## Transform engine (src/processor.rs) -/

/-- Oracles for the external transform libraries: `imageops::resize` with the
Triangle filter (only the resampled pixel data is abstract — the output
dimensions are exactly the requested ones, per the `image` crate contract), and
the `usvg`/`resvg` intrinsic-size query and rasterizer. `svgSize` returns
`(width, height)`. -/
structure TransformCtx where
  resample : RgbaImage → Nat → Nat → List UInt8
  svgSize : String → Except String (Nat × Nat)
  svgRender : String → Except String RgbaImage

/-- `imageops::resize(&img, w, h, FilterType::Triangle)`. -/
def resizeImage (ctx : TransformCtx) (img : RgbaImage) (w h : Nat) : RgbaImage :=
  { width := w, height := h, data := ctx.resample img w h }

/-- `DecodeResult::render_svg` (src/processor.rs lines 97-122). -/
def DecodeResult.render_svg (ctx : TransformCtx) : DecodeResult → Except String DecodeResult
  | .Image img => .ok (.Image img)
  | .Movie fs => .ok (.Movie fs)
  | .TextFmt txt => (ctx.svgRender txt).map DecodeResult.Image

/-- `DecodeResult::resize` (src/processor.rs lines 61-81). For `TextFmt` the
source recurses as `self.render_svg()?.resize(h, w)`; since `render_svg` on
`TextFmt` always yields an `Image`, the recursive call is unfolded into the
`Image` branch. -/
def DecodeResult.resize (ctx : TransformCtx) :
    DecodeResult → Nat → Nat → Except String DecodeResult
  | .Image img, h, w => .ok (.Image (resizeImage ctx img w h))
  | .Movie frames, h, w =>
    .ok (.Movie (frames.map fun f =>
      { buffer := resizeImage ctx f.buffer w h, left := 0, top := 0, delay := f.delay }))
  | .TextFmt txt, h, w =>
    (ctx.svgRender txt).map fun img => .Image (resizeImage ctx img w h)

/-- `DecodeResult::height` (src/processor.rs lines 141-152). -/
def DecodeResult.height (ctx : TransformCtx) : DecodeResult → Except String Nat
  | .Image img => .ok img.height
  | .Movie frames =>
    match frames with
    | [] => .error "cannot find first frame"
    | f :: _ => .ok f.buffer.height
  | .TextFmt txt => (ctx.svgSize txt).map (·.2)

/-- `DecodeResult::width` (src/processor.rs lines 155-166). -/
def DecodeResult.width (ctx : TransformCtx) : DecodeResult → Except String Nat
  | .Image img => .ok img.width
  | .Movie frames =>
    match frames with
    | [] => .error "cannot find first frame"
    | f :: _ => .ok f.buffer.width
  | .TextFmt txt => (ctx.svgSize txt).map (·.1)

/-- `DecodeResult::resize_by_height` (src/processor.rs lines 86-94). The
`u32` product `self.width()? * height` wraps modulo `2^32`; the division is
`u32` (floor) division. -/
def DecodeResult.resize_by_height (ctx : TransformCtx) (d : DecodeResult) (height : Nat) :
    Except String DecodeResult :=
  match d.height ctx with
  | .error e => .error e
  | .ok current_height =>
    if current_height ≤ height then .ok d
    else
      match d.width ctx with
      | .error e => .error e
      | .ok w => d.resize ctx height ((w * height) % (2 ^ 32) / current_height)

/-- `DecodeResult::first` (src/processor.rs lines 125-138). -/
def DecodeResult.first : DecodeResult → Except String DecodeResult
  | .Image img => .ok (.Image img)
  | .TextFmt txt => .ok (.TextFmt txt)
  | .Movie frames =>
    match frames with
    | [] => .error "cannot find first frame"
    | f :: _ => .ok (.Image f.buffer)

/-- `DecodeResult::emoji` (src/processor.rs lines 16-20). -/
def DecodeResult.emoji (ctx : TransformCtx) (d : DecodeResult) : Except String DecodeResult :=
  d.resize_by_height ctx 128

/-- `DecodeResult::avatar` (src/processor.rs lines 23-27). -/
def DecodeResult.avatar (ctx : TransformCtx) (d : DecodeResult) : Except String DecodeResult :=
  d.resize_by_height ctx 320

/-- `DecodeResult::preview` (src/processor.rs lines 30-35). -/
def DecodeResult.preview (ctx : TransformCtx) (d : DecodeResult) : Except String DecodeResult :=
  d.resize ctx 200 200

/-- `DecodeResult::badge` (src/processor.rs lines 38-43). -/
def DecodeResult.badge (ctx : TransformCtx) (d : DecodeResult) : Except String DecodeResult :=
  d.resize ctx 96 96

/-- `DecodeResult::static_` (src/processor.rs lines 46-50). -/
def DecodeResult.static_ (ctx : TransformCtx) (d : DecodeResult) : Except String DecodeResult :=
  match d.first with
  | .error e => .error e
  | .ok x => x.resize_by_height ctx 422

/-- Oracles for the native WebP encoders (`encode_webp_image` /
`encode_webp_anim` from src/webp.rs), at the server's fixed quality factor
(an `f32` threaded through unchanged, folded into the oracles). -/
structure EncodeCtx where
  encodeImage : RgbaImage → Except String (List UInt8)
  encodeAnim : List Frame → Except String (List UInt8)

/-- `DecodeResult::to_webp` (src/processor.rs lines 52-58). For `TextFmt` the
source recurses as `self.render_svg()?.to_webp(q)`; since `render_svg` on
`TextFmt` always yields an `Image`, the recursive call is unfolded. -/
def DecodeResult.to_webp (ctx : TransformCtx) (enc : EncodeCtx) :
    DecodeResult → Except String (List UInt8)
  | .Image img => enc.encodeImage img
  | .Movie fs => enc.encodeAnim fs
  | .TextFmt txt =>
    match ctx.svgRender txt with
    | .error e => .error e
    | .ok img => enc.encodeImage img

/-! ## Pipeline orchestration (src/handler.rs, src/main.rs) -/

/-- `ConvertType` from src/handler.rs. -/
inductive ConvertType where
  | Emoji | Avatar | Preview | Badge | Original
deriving DecidableEq, Repr

/-- `ProxyConfig` from src/handler.rs. -/
structure ProxyConfig where
  url : Url
  convert_type : ConvertType
  is_static : Bool
deriving DecidableEq, Repr

/-- The transform stage of `media_proxy` (src/handler.rs lines 66-81): the
static-ize step, then the preset dispatch. -/
def media_proxy_transform (ctx : TransformCtx) (ct : ConvertType) (is_static : Bool)
    (d : DecodeResult) : Except String DecodeResult :=
  match (if is_static then d.static_ ctx else .ok d) with
  | .error e => .error e
  | .ok d1 =>
    match ct with
    | .Emoji => d1.emoji ctx
    | .Avatar => d1.avatar ctx
    | .Preview => d1.preview ctx
    | .Badge => d1.badge ctx
    | .Original => .ok d1

/-- `media_proxy` (src/handler.rs lines 61-84). -/
def media_proxy (o : Oracles) (ctx : TransformCtx) (fetch : Except String (List UInt8))
    (cfg : ProxyConfig) : Except String DecodeResult :=
  match (download_image o fetch cfg.url).1 with
  | .error e => .error e
  | .ok d => media_proxy_transform ctx cfg.convert_type cfg.is_static d

/-- Modelled from the spec: `DecodeResult::to_png` is invoked by `proxy_handler`
in src/main.rs but its definition is not under src/. The spec says only that the
Badge preset output "is emitted as a plain still-image format (PNG) rather than
the WebP interchange format", so it is modelled as an abstract pure PNG-encoding
step supplied as an oracle. -/
def to_png (pngEnc : DecodeResult → Except String (List UInt8)) (d : DecodeResult) :
    Except String (List UInt8) :=
  pngEnc d

/-- `proxy_handler` (src/main.rs lines 23-46): run `media_proxy`, then emit the
bytes with content type `image/png` for `Badge` and `image/webp` otherwise. -/
def proxy_handler (o : Oracles) (ctx : TransformCtx) (enc : EncodeCtx)
    (pngEnc : DecodeResult → Except String (List UInt8))
    (fetch : Except String (List UInt8)) (cfg : ProxyConfig) :
    Except String (String × List UInt8) :=
  match media_proxy o ctx fetch cfg with
  | .error e => .error e
  | .ok buf =>
    match cfg.convert_type with
    | .Badge =>
      match to_png pngEnc buf with
      | .error e => .error e
      | .ok b => .ok ("image/png", b)
    | _ =>
      match buf.to_webp ctx enc with
      | .error e => .error e
      | .ok b => .ok ("image/webp", b)

/-! ## Codec adapter resource-lifecycle model (src/webp.rs)

Each `Managed*` wrapper owns one native handle: constructing the wrapper is an
`acquire` event, and its `Drop` impl issuing the matching native teardown call
(`WebPPictureFree`, `WebPMemoryWriterClear`, `WebPAnimEncoderDelete`,
`WebPDataClear`, `WebPMuxDelete`, `WebPAnimDecoderDelete`) is a `teardown`
event. The functions below mirror the Rust control flow of src/webp.rs,
including the compiler-inserted drops on each early `return Err(..)` / `?`
propagation and at scope exit, and thread a fresh-id counter. `FailCfg` injects
a failure at each fallible native step. `animAdd` events record each
`WebPAnimEncoderAdd` submission with its frame index and timestamp. -/

inductive ResKind where
  | picture | memWriter | animEncoder | webpData | mux | animDecoder
deriving DecidableEq, Repr

inductive Ev where
  | acquire (k : ResKind) (id : Nat)
  | teardown (k : ResKind) (id : Nat)
  | animAdd (frameIdx : Nat) (timestampMs : Nat)
deriving DecidableEq, Repr

/-- Failure-injection configuration: one switch per fallible native step.
Per-call steps are indexed by call number (the frame index on the animated
path; `0` on the single-image path). `decFrames` is how many frames the native
animation decoder reports before `WebPAnimDecoderHasMoreFrames` turns false. -/
structure FailCfg where
  configInitFail : Nat → Bool
  validateFail : Nat → Bool
  picInitFail : Nat → Bool
  importFail : Nat → Bool
  encodeFail : Bool
  animAddFail : Nat → Bool
  assembleFail : Bool
  muxSetParamsFail : Bool
  muxAssembleFail : Bool
  decOptInitFail : Bool
  decNewNull : Bool
  decGetInfoFail : Bool
  decGetNextFail : Nat → Bool
  decFromRawFail : Nat → Bool
  decFrames : Nat

/-- `ManagedWebpPicture::from_rgba` (src/webp.rs lines 37-59). The config, the
raw `WebPPicture` value and the RGBA import all precede construction of the
managed wrapper, so the failure paths acquire nothing; on success the wrapper
owning the picture is acquired. Returns the picture id. -/
def from_rgba_tr (fc : FailCfg) (call n : Nat) : Except String Nat × Nat × List Ev :=
  if fc.configInitFail call then (.error "WebPConfig init failed", n, [])
  else if fc.validateFail call then (.error "WebpConfig Validate error", n, [])
  else if fc.picInitFail call then (.error "WebPPicture init failed", n, [])
  else if fc.importFail call then (.error "Webp importRGBA failed", n, [])
  else (.ok n, n + 1, [.acquire .picture n])

/-- `ManagedWebpPicture::encode` (src/webp.rs lines 72-91), consuming picture
`pid`. The memory writer is wrapped in `ManagedWebpMemoryWriter` before the
status check, so it is acquired on both branches; on the error branch it is
dropped locally together with `self`, on the success branch it is returned and
`self` alone is dropped at scope exit. Returns the writer id. -/
def pic_encode_tr (fc : FailCfg) (pid n : Nat) : Except String Nat × Nat × List Ev :=
  if fc.encodeFail then
    (.error "WebpEncode error code: 0", n + 1,
      [.acquire .memWriter n, .teardown .memWriter n, .teardown .picture pid])
  else
    (.ok n, n + 1, [.acquire .memWriter n, .teardown .picture pid])

/-- `encode_webp_image` (src/webp.rs lines 101-105): the writer returned by
`encode` is read and then dropped at the end of the function. -/
def encode_webp_image_tr (fc : FailCfg) : Except String Unit × Nat × List Ev :=
  match from_rgba_tr fc 0 0 with
  | (.error e, n, tr) => (.error e, n, tr)
  | (.ok pid, n, tr) =>
    match pic_encode_tr fc pid n with
    | (.error e, n', tr') => (.error e, n', tr ++ tr')
    | (.ok wid, n', tr') => (.ok (), n', tr ++ tr' ++ [.teardown .memWriter wid])

/-- `ManagedWebpAnim::new` (src/webp.rs lines 153-174): fails before acquiring
anything when the frame list is empty; otherwise the wrapper owning the
animation encoder is acquired (a null encoder is still owned and deleted). -/
def anim_new_tr (_fc : FailCfg) (numFrames n : Nat) : Except String Nat × Nat × List Ev :=
  if numFrames = 0 then (.error "cannot get first frame", n, [])
  else (.ok n, n + 1, [.acquire .animEncoder n])

/-- `ManagedWebpAnim::anim_encoder_add` (src/webp.rs lines 209-234) for the
frame with index `i` and rational delay `d` (numer, denom): the running
timestamp is incremented by `numer / denom` (u32 arithmetic) first, then a
per-frame managed picture is created and submitted at the post-increment
timestamp; the picture is dropped on both the error return and the normal
return. Returns the updated timestamp. -/
def anim_encoder_add_tr (fc : FailCfg) (i : Nat) (d : Nat × Nat) (ts n : Nat) :
    Except String Nat × Nat × List Ev :=
  let ts' := (ts + d.1 / d.2) % (2 ^ 32)
  match from_rgba_tr fc i n with
  | (.error e, n', tr) => (.error e, n', tr)
  | (.ok pid, n', tr) =>
    if fc.animAddFail i then
      (.error "Webp Anim encode faild: 0", n',
        tr ++ [.animAdd i ts', .teardown .picture pid])
    else
      (.ok ts', n', tr ++ [.animAdd i ts', .teardown .picture pid])

/-- The `for f in self.frames.iter()` loop of `ManagedWebpAnim::encode`
(src/webp.rs lines 177-180), over the frames' delays. Returns the final
timestamp. -/
def anim_add_loop_tr (fc : FailCfg) : List (Nat × Nat) → Nat → Nat → Nat →
    Except String Nat × Nat × List Ev
  | [], _, ts, n => (.ok ts, n, [])
  | d :: rest, i, ts, n =>
    match anim_encoder_add_tr fc i d ts n with
    | (.error e, n', tr) => (.error e, n', tr)
    | (.ok ts', n', tr) =>
      match anim_add_loop_tr fc rest (i + 1) ts' n' with
      | (r, n'', tr') => (r, n'', tr ++ tr')

/-- `ManagedWebpAnim::encode` (src/webp.rs lines 176-207), consuming the
wrapper that owns animation encoder `eid`: the add loop, `Assemble` into a
managed `WebPData`, the mux creation, the two mux calls, and the drops of the
mux, the data buffer and `self` on every exit path (locals in reverse
declaration order, then the consumed `self`). -/
def anim_encode_tr (fc : FailCfg) (eid : Nat) (delays : List (Nat × Nat)) (n : Nat) :
    Except String Unit × Nat × List Ev :=
  match anim_add_loop_tr fc delays 0 0 n with
  | (.error e, n', tr) => (.error e, n', tr ++ [.teardown .animEncoder eid])
  | (.ok _, n', tr) =>
    if fc.assembleFail then
      (.error "Webp Anim Assemble failed: 0", n', tr ++ [.teardown .animEncoder eid])
    else
      let did := n'
      let mid := n' + 1
      let tr2 := tr ++ [.acquire .webpData did, .acquire .mux mid]
      let drops := [Ev.teardown .mux mid, Ev.teardown .webpData did,
        Ev.teardown .animEncoder eid]
      if fc.muxSetParamsFail then (.error "mux err", n' + 2, tr2 ++ drops)
      else if fc.muxAssembleFail then (.error "mux err", n' + 2, tr2 ++ drops)
      else (.ok (), n' + 2, tr2 ++ drops)

/-- `encode_webp_anim` (src/webp.rs lines 253-256), over the frames' delays. -/
def encode_webp_anim_tr (fc : FailCfg) (delays : List (Nat × Nat)) :
    Except String Unit × Nat × List Ev :=
  match anim_new_tr fc delays.length 0 with
  | (.error e, n, tr) => (.error e, n, tr)
  | (.ok eid, n, tr) =>
    match anim_encode_tr fc eid delays n with
    | (r, n', tr') => (r, n', tr ++ tr')

/-- `ManagedWebpAnimDecoder::new` (src/webp.rs lines 272-298): both failure
paths precede construction of the wrapper (a null decoder is rejected before
`Self` is built), so they acquire nothing. -/
def anim_decoder_new_tr (fc : FailCfg) (n : Nat) : Except String Nat × Nat × List Ev :=
  if fc.decOptInitFail then (.error "anim decoder option init failed", n, [])
  else if fc.decNewNull then (.error "anim decoder init failed", n, [])
  else (.ok n, n + 1, [.acquire .animDecoder n])

/-- The frame-pull loop of `decode_innternal` (src/webp.rs lines 314-334):
the per-frame buffers are copied out, no managed resource is acquired. -/
def dec_pull_loop (fc : FailCfg) : Nat → Nat → Except String Unit
  | 0, _ => .ok ()
  | m + 1, i =>
    if fc.decGetNextFail i then .error "webp anim decode failed"
    else if fc.decFromRawFail i then .error "read rgba image failed"
    else dec_pull_loop fc m (i + 1)

/-- `decode_innternal` + `decode` result status (src/webp.rs lines 300-334),
resource-wise: only the possible errors matter. -/
def dec_inner_tr (fc : FailCfg) : Except String Unit :=
  if fc.decGetInfoFail then .error "getting anim info failed"
  else dec_pull_loop fc fc.decFrames 0

/-- `decode_webp_anim` (src/webp.rs lines 359-362), resource-wise: the decoder
wrapper is dropped at the end of the function on both success and failure of
`decode`. -/
def decode_webp_anim_tr (fc : FailCfg) : Except String Unit × Nat × List Ev :=
  match anim_decoder_new_tr fc 0 with
  | (.error e, n, tr) => (.error e, n, tr)
  | (.ok did, n, tr) =>
    (dec_inner_tr fc, n, tr ++ [.teardown .animDecoder did])

/-! ### Resource-balance property -/

/-- The `(kind, id)` pairs acquired in a trace. -/
def acquiresOf (tr : List Ev) : List (ResKind × Nat) :=
  tr.filterMap fun e =>
    match e with
    | .acquire k i => some (k, i)
    | _ => none

/-- The `(kind, id)` pairs torn down in a trace. -/
def teardownsOf (tr : List Ev) : List (ResKind × Nat) :=
  tr.filterMap fun e =>
    match e with
    | .teardown k i => some (k, i)
    | _ => none

/-- Every acquired handle is torn down exactly once and nothing else is torn
down: the teardowns are a permutation of the acquires, and no handle is
acquired twice. -/
def TornExactlyOnce (tr : List Ev) : Prop :=
  (acquiresOf tr).Perm (teardownsOf tr) ∧ (acquiresOf tr).Nodup

/-- A trace segment is self-balanced with all its handle ids in `[lo, hi)`:
its teardowns are a permutation of its acquires, no handle is acquired twice,
and every handle id lies in the id range the segment consumed. -/
def SegOK (lo hi : Nat) (tr : List Ev) : Prop :=
  lo ≤ hi ∧
  (acquiresOf tr).Perm (teardownsOf tr) ∧
  (acquiresOf tr).Nodup ∧
  (∀ p ∈ acquiresOf tr, lo ≤ p.2 ∧ p.2 < hi) ∧
  (∀ p ∈ teardownsOf tr, lo ≤ p.2 ∧ p.2 < hi)

/-! ### Timestamp bookkeeping (for the animated-encode submission claim) -/

/-- The running u32 timestamp after processing delays `ds` starting from `t0`:
each step adds `numer / denom` integer milliseconds, wrapping modulo `2^32`. -/
def tsAfter (t0 : Nat) (ds : List (Nat × Nat)) : Nat :=
  ds.foldl (fun t d => (t + d.1 / d.2) % (2 ^ 32)) t0

/-- The exact integer-millisecond sum of a list of rational delays. -/
def delaysMsSum (ds : List (Nat × Nat)) : Nat :=
  (ds.map fun d => d.1 / d.2).sum

/-- No failure is injected into the steps of the animated-encode add path. -/
def NoAddFail (fc : FailCfg) : Prop :=
  ∀ i, fc.configInitFail i = false ∧ fc.validateFail i = false ∧
    fc.picInitFail i = false ∧ fc.importFail i = false ∧ fc.animAddFail i = false

/-! ## Spec-side definitions (for comparison with the code) -/

/-- Spec-side definition: the width the spec's `resize_by_height_cap` formula
prescribes, `round(current_width * max_height / current_height)` with
round-half-up rational rounding. -/
def roundedDiv (a b : Nat) : Nat := (2 * a + b) / (2 * b)

/-- Spec-side table: the sniffed-format-to-ImageExt mapping the code actually
implements (recognized formats, the `Unknown`-mapped formats, and the
fallthrough). -/
def sniffTable : ImageFormat → ImageExt
  | .Png => ImageExt.Png
  | .Jpeg => ImageExt.Jpeg
  | .Gif => ImageExt.Gif
  | .WebP => ImageExt.Webp
  | .Ico => ImageExt.Ico
  | .Other => ImageExt.Svg
  | _ => ImageExt.Unknown

/-- The shape precondition of the height-cap claim: a raster image or a
nonempty frame sequence. -/
def IsRasterOrFrames : DecodeResult → Prop
  | .Image _ => True
  | .Movie fs => fs ≠ []
  | .TextFmt _ => False

/-! ## Concrete fixtures used by witnesses and counterexamples -/

/-- A trivially computable decoder-oracle fixture. -/
def oFix : Oracles where
  sniff _ := .error ()
  pngDecode _ := .error "png"
  jpegDecode _ := .error "jpeg"
  gifDecode _ := .error "gif"
  icoDecode _ := .error "ico"
  webpProbe _ := .error "webp"
  webpStill _ := .error "webp"
  animNative _ := .error "anim"

/-- The decoder-oracle fixture whose signature sniff reports BMP. -/
def oBmpSniff : Oracles :=
  { oFix with sniff := fun _ => .ok ImageFormat.Bmp }

/-- A trivially computable transform-oracle fixture: the resampled pixel data is
all zeroes, the SVG oracles fail. -/
def ctxFix : TransformCtx where
  resample _ w h := List.replicate (w * h * 4) 0
  svgSize _ := .error "svg"
  svgRender _ := .error "svg"

/-- A trivially computable encoder-oracle fixture. -/
def encFix : EncodeCtx where
  encodeImage _ := .ok [1]
  encodeAnim _ := .ok [2]

/-- The failure-injection configuration that injects no failure and reports two
decoded frames. -/
def fcNone : FailCfg where
  configInitFail _ := false
  validateFail _ := false
  picInitFail _ := false
  importFail _ := false
  encodeFail := false
  animAddFail _ := false
  assembleFail := false
  muxSetParamsFail := false
  muxAssembleFail := false
  decOptInitFail := false
  decNewNull := false
  decGetInfoFail := false
  decGetNextFail _ := false
  decFromRawFail _ := false
  decFrames := 2

/-- A one-pixel RGBA image fixture. -/
def px1 : RgbaImage := ⟨1, 1, [0, 0, 0, 0]⟩

/-- A single-frame fixture with a 10/1 ms delay. -/
def frameFix : Frame := ⟨px1, 0, 0, ⟨10, 1⟩⟩

/-- The decoder-oracle fixture whose PNG decoder succeeds with `px1`. -/
def oPngFix : Oracles :=
  { oFix with pngDecode := fun _ => .ok px1 }

/-- A 10×4 raster fixture. -/
def imgW : RgbaImage := ⟨10, 4, List.replicate 160 0⟩

/-- The decoder-oracle fixture whose native animation decoder reports two
frames with cumulative timestamps 40 ms and 100 ms. -/
def oAnimFix : Oracles :=
  { oFix with animNative := fun _ => .ok [(px1, 40), (px1, 100)] }

/-! ## Claim theorems -/

/-- C8: `reduce_to_first_frame` (`first` in code) on a frame sequence of N ≥ 1
frames yields a `RasterImage` equal to frame 0's buffer; on `RasterImage` and
`VectorMarkup` it is the identity. -/
theorem claim8_first_frame (frames : List Frame) (img : RgbaImage) (txt : String)
    (hne : frames ≠ []) :
    DecodeResult.first (.Movie frames) = .ok (.Image (frames.headD default).buffer) ∧
    DecodeResult.first (.Image img) = .ok (.Image img) ∧
    DecodeResult.first (.TextFmt txt) = .ok (.TextFmt txt) := by
  refine ⟨?_, rfl, rfl⟩
  cases frames with
  | nil => exact absurd rfl hne
  | cons f fs => rfl

/-- Witness for C8 at a concrete one-frame sequence. -/
theorem claim8_first_frame_witness :
    [frameFix] ≠ [] ∧
    (DecodeResult.first (.Movie [frameFix]) =
        .ok (.Image (([frameFix] : List Frame).headD default).buffer) ∧
      DecodeResult.first (.Image px1) = .ok (.Image px1) ∧
      DecodeResult.first (.TextFmt "x") = .ok (.TextFmt "x")) :=
  ⟨by decide, claim8_first_frame [frameFix] px1 "x" (by decide)⟩

/-- C9: the pipeline's transform stage applies, when the static-ize flag is set,
`first` followed by a height cap of 422 before the preset; and the presets map
as Emoji → height cap 128, Avatar → height cap 320, Preview → exact 200×200,
Badge → exact 96×96, Original → identity. -/
theorem claim9_pipeline_composition (ctx : TransformCtx) (ct : ConvertType)
    (st : Bool) (d : DecodeResult) :
    media_proxy_transform ctx ct st d =
      (match (if st then
          (match d.first with
           | .error e => (.error e : Except String DecodeResult)
           | .ok x => x.resize_by_height ctx 422)
        else (.ok d : Except String DecodeResult)) with
       | .error e => (.error e : Except String DecodeResult)
       | .ok x =>
        match ct with
        | .Emoji => x.resize_by_height ctx 128
        | .Avatar => x.resize_by_height ctx 320
        | .Preview => x.resize ctx 200 200
        | .Badge => x.resize ctx 96 96
        | .Original => .ok x) := by
  cases st with
  | false => cases ct <;> rfl
  | true =>
    cases hf : d.first with
    | error e => simp [media_proxy_transform, DecodeResult.static_, hf]
    | ok x =>
      cases hr : x.resize_by_height ctx 422 with
      | error e =>
        cases ct <;> simp [media_proxy_transform, DecodeResult.static_, hf, hr]
      | ok y =>
        cases ct <;>
          simp [media_proxy_transform, DecodeResult.static_, hf, hr,
            DecodeResult.emoji, DecodeResult.avatar, DecodeResult.preview,
            DecodeResult.badge]

/-- C4: on success the pipeline's output is tagged `image/webp` for every
preset except Badge, whose output is instead emitted as PNG. -/
theorem claim4_content_type (o : Oracles) (ctx : TransformCtx) (enc : EncodeCtx)
    (pngEnc : DecodeResult → Except String (List UInt8))
    (fetch : Except String (List UInt8)) (cfg : ProxyConfig)
    (tag : String) (bytes : List UInt8)
    (h : proxy_handler o ctx enc pngEnc fetch cfg = .ok (tag, bytes)) :
    tag = if cfg.convert_type = ConvertType.Badge then "image/png" else "image/webp" := by
  unfold proxy_handler at h
  cases hm : media_proxy o ctx fetch cfg with
  | error e => rw [hm] at h; exact absurd h (by simp)
  | ok buf =>
    rw [hm] at h
    cases hct : cfg.convert_type <;> rw [hct] at h <;> simp only [] at h
    case Badge =>
      cases hp : to_png pngEnc buf with
      | error e => rw [hp] at h; exact absurd h (by simp)
      | ok b =>
        rw [hp] at h
        simp only [Except.ok.injEq, Prod.mk.injEq] at h
        simp [← h.1]
    all_goals
      cases hw : buf.to_webp ctx enc with
      | error e => rw [hw] at h; exact absurd h (by simp)
      | ok b =>
        rw [hw] at h
        simp only [Except.ok.injEq, Prod.mk.injEq] at h
        simp [← h.1]

/-- C10: a buffer classified as Svg decodes unconditionally (no markup
validation) to `VectorMarkup` holding the lossy UTF-8 conversion of the bytes;
this holds for every decoder-oracle instantiation, so any malformed-markup
error can only surface at later rasterization or size queries. -/
theorem claim10_svg_decode (o : Oracles) (fetch : Except String (List UInt8))
    (url : Url) (buf : List UInt8)
    (hp : is_private_like url = false) (hf : fetch = .ok buf)
    (hc : classify o url buf = ImageExt.Svg) :
    download_image o fetch url = (.ok (.TextFmt (utf8Lossy buf)), true) := by
  subst hf
  unfold download_image
  simp [hp, hc]

/-- Witness for C10 at a concrete URL and a buffer whose first byte is invalid
UTF-8 (the decoded text starts with U+FFFD). -/
theorem claim10_svg_decode_witness :
    is_private_like ⟨some (.Domain "example.com"), "/img.svg"⟩ = false ∧
    classify oFix ⟨some (.Domain "example.com"), "/img.svg"⟩ [0xFF, 0x61] = ImageExt.Svg ∧
    download_image oFix (.ok [0xFF, 0x61]) ⟨some (.Domain "example.com"), "/img.svg"⟩ =
      (.ok (.TextFmt (utf8Lossy [0xFF, 0x61])), true) :=
  ⟨by decide, by decide,
    claim10_svg_decode oFix _ _ [0xFF, 0x61] (by decide) rfl (by decide)⟩

/-- Witness for C4 at a concrete successful Badge request over a PNG source. -/
theorem claim4_content_type_witness :
    proxy_handler oPngFix ctxFix encFix (fun _ => .ok [3]) (.ok [])
        ⟨⟨some (.Domain "example.com"), "/a.png"⟩, .Badge, false⟩ = .ok ("image/png", [3]) ∧
    "image/png" =
      (if (⟨⟨some (.Domain "example.com"), "/a.png"⟩, .Badge, false⟩ :
          ProxyConfig).convert_type = ConvertType.Badge
        then "image/png" else "image/webp") :=
  ⟨by decide,
    claim4_content_type oPngFix ctxFix encFix (fun _ => .ok [3]) (.ok [])
      ⟨⟨some (.Domain "example.com"), "/a.png"⟩, .Badge, false⟩ "image/png" [3] (by decide)⟩

/-- C5: a URL whose host is a literal IPv4/IPv6 address, or a domain string
that itself parses as an IP literal, is rejected with the address-rejected
error and the network call is never issued (the result is the same for every
fetch outcome); a normal domain host proceeds to fetch. -/
theorem claim5_ip_literal_reject (o : Oracles) (fetch : Except String (List UInt8))
    (url : Url) :
    ((match url.host with
      | some (.Domain s) => ipAddrParses s = true
      | some (.Ipv4 _ _ _ _) => True
      | some (.Ipv6 _) => True
      | none => False) →
      download_image o fetch url = (.error "Cannot accept ipaddr", false)) ∧
    (∀ s, url.host = some (.Domain s) → ipAddrParses s = false →
      (download_image o fetch url).2 = true) := by
  constructor
  · intro h
    have hp : is_private_like url = true := by
      unfold is_private_like
      cases h2 : url.host with
      | none => rfl
      | some host =>
        rw [h2] at h
        cases host with
        | Domain s => exact h
        | Ipv4 a b c d => rfl
        | Ipv6 g => rfl
    unfold download_image
    simp [hp]
  · intro s hs hps
    have hp : is_private_like url = false := by
      unfold is_private_like; rw [hs]; exact hps
    unfold download_image
    simp only [hp, Bool.false_eq_true, if_false]
    cases fetch <;> rfl

/-- Witness for C5: hosts `"127.0.0.1"` and `"::1"` are rejected without a
network call; host `"example.com"` reaches the fetch. -/
theorem claim5_ip_literal_reject_witness :
    download_image oFix (.ok []) ⟨some (.Domain "127.0.0.1"), "/a.png"⟩ =
      (.error "Cannot accept ipaddr", false) ∧
    download_image oFix (.ok []) ⟨some (.Domain "::1"), "/a.png"⟩ =
      (.error "Cannot accept ipaddr", false) ∧
    (download_image oFix (.ok []) ⟨some (.Domain "example.com"), "/a.png"⟩).2 = true :=
  ⟨(claim5_ip_literal_reject oFix (.ok []) ⟨some (.Domain "127.0.0.1"), "/a.png"⟩).1
      (by decide),
   (claim5_ip_literal_reject oFix (.ok []) ⟨some (.Domain "::1"), "/a.png"⟩).1 (by decide),
   (claim5_ip_literal_reject oFix (.ok []) ⟨some (.Domain "example.com"), "/a.png"⟩).2
      "example.com" rfl (by decide)⟩

/-- C2 counterexample: a buffer sniffed as BMP maps to `Unknown`, not `Svg`,
and `download_image` then fails hard with "Not supported" — contradicting the
claim that every other sniffed format collapses to Svg and that a BMP sniff is
not a hard failure. -/
theorem claim2_counterexample :
    guess_format (fun _ => .ok ImageFormat.Bmp) [] = ImageExt.Unknown ∧
    ImageExt.Unknown ≠ ImageExt.Svg ∧
    (download_image oBmpSniff (.ok []) ⟨some (.Domain "example.com"), "/y.bmp"⟩).1 =
      .error "Not supported" :=
  ⟨rfl, by decide, by decide⟩

/-- C2 (amended): the signature sniff maps recognized magic bytes to
Png/Jpeg/Gif/Webp/Ico; the sniffed formats Pnm, Tiff, Tga, Dds, Bmp, Hdr,
OpenExr, Farbfeld, Avif and Qoi map to Unknown — which `download_image` then
rejects as a hard "Not supported" failure — and only sniff failure and
unmatched future variants collapse to Svg. -/
theorem claim2_sniff_mapping_amended (sniff : List UInt8 → Except Unit ImageFormat)
    (buf : List UInt8) :
    (guess_format sniff buf =
      match sniff buf with
      | .error _ => ImageExt.Svg
      | .ok f => sniffTable f) ∧
    (∀ (o : Oracles) (fetch : Except String (List UInt8)) (url : Url) (b : List UInt8),
      is_private_like url = false → fetch = .ok b →
      classify o url b = ImageExt.Unknown →
      (download_image o fetch url).1 = .error "Not supported") := by
  constructor
  · unfold guess_format sniffTable
    cases sniff buf with
    | error e => rfl
    | ok f => cases f <;> rfl
  · intro o fetch url b hp hf hc
    subst hf
    unfold download_image
    simp [hp, hc]

/-- Witness for C2 (amended) at the BMP-sniffing fixture. -/
theorem claim2_sniff_mapping_amended_witness :
    guess_format (fun _ => .ok ImageFormat.Bmp) [] = ImageExt.Unknown ∧
    (download_image oBmpSniff (.ok []) ⟨some (.Domain "example.com"), "/y.bmp"⟩).1 =
      .error "Not supported" :=
  ⟨(claim2_sniff_mapping_amended (fun _ => .ok ImageFormat.Bmp) []).1,
   (claim2_sniff_mapping_amended (fun _ => .ok ImageFormat.Bmp) []).2 oBmpSniff (.ok [])
     ⟨some (.Domain "example.com"), "/y.bmp"⟩ [] (by decide) rfl (by decide)⟩

/-- C1 counterexample: at a 3×2 raster input and cap 1, the code computes the
new width as 3*1/2 = 1 by u32 floor division, while the claimed
round(3*1/2) is 2 — so the output width differs from the claim's. -/
theorem claim1_counterexample :
    DecodeResult.resize_by_height ctxFix (.Image ⟨3, 2, List.replicate 24 0⟩) 1 =
      .ok (.Image ⟨1, 1, List.replicate 4 0⟩) ∧
    roundedDiv (3 * 1) 2 = 2 ∧ (1 : Nat) ≠ roundedDiv (3 * 1) 2 :=
  ⟨by decide, by decide, by decide⟩

/-- Helper: `resize` on a raster or nonempty frame sequence always succeeds and
produces an output of exactly the requested height (and the same shape). -/
theorem resize_shape (ctx : TransformCtx) (d : DecodeResult) (h w : Nat)
    (hshape : IsRasterOrFrames d) :
    ∃ d2, d.resize ctx h w = .ok d2 ∧ d2.height ctx = .ok h ∧ IsRasterOrFrames d2 := by
  cases d with
  | Image img => exact ⟨_, rfl, rfl, trivial⟩
  | Movie frames =>
    cases frames with
    | nil => exact absurd rfl hshape
    | cons f fs => exact ⟨_, rfl, rfl, by simp [IsRasterOrFrames, DecodeResult.resize]⟩
  | TextFmt txt => exact absurd hshape (by simp [IsRasterOrFrames])

/-- C1 (amended): for every raster or nonempty-frame-sequence input,
`resize_by_height` is a no-op exactly when the current height ≤ the cap;
otherwise the output has height `cap` and width
`current_width * cap / current_height` by u32 floor division (the product
wrapping modulo 2^32) — floor, not round. -/
theorem claim1_height_cap_amended (ctx : TransformCtx) (d : DecodeResult)
    (cap h0 w0 : Nat) (hshape : IsRasterOrFrames d)
    (hh : d.height ctx = .ok h0) (hw : d.width ctx = .ok w0) :
    (h0 ≤ cap → d.resize_by_height ctx cap = .ok d) ∧
    (cap < h0 →
      d.resize_by_height ctx cap = d.resize ctx cap ((w0 * cap) % (2 ^ 32) / h0) ∧
      (∃ d2, d.resize_by_height ctx cap = .ok d2 ∧ d2.height ctx = .ok cap) ∧
      d.resize_by_height ctx cap ≠ .ok d) := by
  have hrw : d.resize_by_height ctx cap =
      if h0 ≤ cap then .ok d
      else d.resize ctx cap ((w0 * cap) % (2 ^ 32) / h0) := by
    unfold DecodeResult.resize_by_height
    rw [hh, hw]
  constructor
  · intro hle
    rw [hrw, if_pos hle]
  · intro hlt
    have hnle : ¬ h0 ≤ cap := not_le.mpr hlt
    rw [hrw, if_neg hnle]
    obtain ⟨d2, hd2, hd2h, _⟩ :=
      resize_shape ctx d cap ((w0 * cap) % (2 ^ 32) / h0) hshape
    refine ⟨rfl, ⟨d2, hd2, hd2h⟩, ?_⟩
    intro heq
    have hde : d2 = d := by
      rw [hd2] at heq
      exact Except.ok.inj heq
    rw [hde, hh] at hd2h
    have : h0 = cap := Except.ok.inj hd2h
    omega

/-- Witness for C1 (amended) at a concrete 10×4 raster and cap 2 (the new
width is 10*2/4 = 5). -/
theorem claim1_height_cap_amended_witness :
    (4 ≤ 2 → DecodeResult.resize_by_height ctxFix (.Image imgW) 2 = .ok (.Image imgW)) ∧
    (2 < 4 →
      DecodeResult.resize_by_height ctxFix (.Image imgW) 2 =
        DecodeResult.resize ctxFix (.Image imgW) 2 ((10 * 2) % (2 ^ 32) / 4) ∧
      (∃ d2, DecodeResult.resize_by_height ctxFix (.Image imgW) 2 = .ok d2 ∧
        d2.height ctxFix = .ok 2) ∧
      DecodeResult.resize_by_height ctxFix (.Image imgW) 2 ≠ .ok (.Image imgW)) :=
  claim1_height_cap_amended ctxFix (.Image imgW) 2 4 10 trivial rfl rfl

/-- Helper: the timestamp-differencing loop of the animated decode, for
timestamps that are nonnegative, nondecreasing and within i32 range starting
from `before`. -/
theorem webpAnimFrames_spec (pairs : List (RgbaImage × Int)) (before : Int)
    (hb : 0 ≤ before)
    (hfirst : ∀ p, pairs.head? = some p → before ≤ p.2)
    (hmono : ∀ k, k + 1 < pairs.length →
      (pairs.getD k default).2 ≤ (pairs.getD (k + 1) default).2)
    (hrange : ∀ p ∈ pairs, p.2 < 2 ^ 31) :
    (webpAnimFrames before pairs).length = pairs.length ∧
    ∀ k, k < pairs.length →
      ((webpAnimFrames before pairs).getD k default).buffer = (pairs.getD k default).1 ∧
      ((webpAnimFrames before pairs).getD k default).delay =
        ⟨((pairs.getD k default).2 -
          (if k = 0 then before else (pairs.getD (k - 1) default).2)).toNat, 1⟩ := by
  induction pairs generalizing before with
  | nil => exact ⟨rfl, fun k hk => absurd hk (by simp)⟩
  | cons p rest ih =>
    have hbp : before ≤ p.2 := hfirst p rfl
    have hp31 : p.2 < 2 ^ 31 := hrange p (List.mem_cons_self p rest)
    have hcast : i32ToU32 (p.2 - before) = (p.2 - before).toNat := by
      unfold i32ToU32
      rw [Int.emod_eq_of_lt (by omega) (by omega)]
    have hfirst2 : ∀ q, rest.head? = some q → p.2 ≤ q.2 := by
      intro q hq
      cases rest with
      | nil => simp at hq
      | cons r rt =>
        have hm := hmono 0 (by simp)
        simp at hm hq
        subst hq
        simpa using hm
    have hmono2 : ∀ k, k + 1 < rest.length →
        (rest.getD k default).2 ≤ (rest.getD (k + 1) default).2 := by
      intro k hk
      have := hmono (k + 1) (by simpa using Nat.succ_lt_succ hk)
      simpa using this
    obtain ⟨ihlen, ihk⟩ := ih p.2 (le_trans hb hbp) hfirst2 hmono2
      (fun q hq => hrange q (List.mem_cons_of_mem p hq))
    constructor
    · simpa [webpAnimFrames] using ihlen
    · intro k hk
      cases k with
      | zero => exact ⟨rfl, by simp [webpAnimFrames, hcast]⟩
      | succ j =>
        have hj : j < rest.length := by simpa using hk
        obtain ⟨ihb, ihd⟩ := ihk j hj
        refine ⟨by simpa [webpAnimFrames] using ihb, ?_⟩
        cases j with
        | zero => simpa [webpAnimFrames] using ihd
        | succ j2 => simpa [webpAnimFrames] using ihd

/-- C6: an animated-WebP decode produces a frame sequence assigning each frame
a display duration equal to the delta between consecutive native-reported
cumulative timestamps, the first frame's duration being its own timestamp minus
zero (stated for native timestamps that are nonnegative, nondecreasing and
within i32 range, as the native decoder reports). -/
theorem claim6_anim_decode_delays (o : Oracles) (buf : List UInt8)
    (pairs : List (RgbaImage × Int))
    (hnat : o.animNative buf = .ok pairs)
    (hnn : ∀ p ∈ pairs, 0 ≤ p.2 ∧ p.2 < 2 ^ 31)
    (hmono : ∀ k, k + 1 < pairs.length →
      (pairs.getD k default).2 ≤ (pairs.getD (k + 1) default).2) :
    ∃ frames, decode_webp_anim o buf = .ok frames ∧
      frames.length = pairs.length ∧
      ∀ k, k < pairs.length →
        (frames.getD k default).buffer = (pairs.getD k default).1 ∧
        (frames.getD k default).delay =
          ⟨((pairs.getD k default).2 -
            (if k = 0 then 0 else (pairs.getD (k - 1) default).2)).toNat, 1⟩ := by
  refine ⟨webpAnimFrames 0 pairs, by simp [decode_webp_anim, hnat], ?_⟩
  exact webpAnimFrames_spec pairs 0 (le_refl 0)
    (fun p hp => by
      have := hnn p (by
        cases pairs with
        | nil => simp at hp
        | cons q qs => simp at hp; subst hp; exact List.mem_cons_self q qs)
      exact this.1)
    hmono (fun p hp => (hnn p hp).2)

/-- Witness for C6 at two concrete frames with cumulative timestamps 40 and
100 ms (durations 40 and 60 ms). -/
theorem claim6_anim_decode_delays_witness :
    (∀ p ∈ [((px1 : RgbaImage), (40 : Int)), (px1, 100)], 0 ≤ p.2 ∧ p.2 < 2 ^ 31) ∧
    (∃ frames, decode_webp_anim oAnimFix [] = .ok frames ∧
      frames.length = ([((px1 : RgbaImage), (40 : Int)), (px1, 100)]).length ∧
      ∀ k, k < ([((px1 : RgbaImage), (40 : Int)), (px1, 100)]).length →
        (frames.getD k default).buffer =
          (([((px1 : RgbaImage), (40 : Int)), (px1, 100)]).getD k default).1 ∧
        (frames.getD k default).delay =
          ⟨((([((px1 : RgbaImage), (40 : Int)), (px1, 100)]).getD k default).2 -
            (if k = 0 then 0
             else (([((px1 : RgbaImage), (40 : Int)), (px1, 100)]).getD (k - 1) default).2)).toNat,
            1⟩) :=
  ⟨by decide,
    claim6_anim_decode_delays oAnimFix [] [(px1, 40), (px1, 100)] rfl (by decide)
      (fun k hk => by
        simp at hk
        have hk0 : k = 0 := by omega
        subst hk0
        decide)⟩

/-- Helper: `from_rgba_tr` either fails before acquiring anything or acquires
exactly the picture wrapper with the next fresh id. -/
theorem from_rgba_tr_spec (fc : FailCfg) (call n : Nat) :
    (∃ e, from_rgba_tr fc call n = (.error e, n, [])) ∨
    from_rgba_tr fc call n = (.ok n, n + 1, [.acquire .picture n]) := by
  unfold from_rgba_tr
  repeat' split
  all_goals first
    | exact .inl ⟨_, rfl⟩
    | exact .inr rfl

/-- Helper: the three possible outcomes of `anim_encoder_add_tr`: early failure
with no events, add-failure with a balanced picture segment, or success with a
balanced picture segment; the `animAdd` event always carries the post-increment
timestamp. -/
theorem anim_encoder_add_tr_spec (fc : FailCfg) (i : Nat) (d : Nat × Nat) (ts n : Nat) :
    (∃ e, anim_encoder_add_tr fc i d ts n = (.error e, n, [])) ∨
    (∃ e, anim_encoder_add_tr fc i d ts n = (.error e, n + 1,
      [.acquire .picture n, .animAdd i ((ts + d.1 / d.2) % 2 ^ 32),
        .teardown .picture n])) ∨
    anim_encoder_add_tr fc i d ts n = (.ok ((ts + d.1 / d.2) % 2 ^ 32), n + 1,
      [.acquire .picture n, .animAdd i ((ts + d.1 / d.2) % 2 ^ 32),
        .teardown .picture n]) := by
  unfold anim_encoder_add_tr
  rcases from_rgba_tr_spec fc i n with ⟨e, he⟩ | he <;> rw [he]
  · exact .inl ⟨e, rfl⟩
  · by_cases hf : fc.animAddFail i
    · simp only [hf, if_true]
      exact .inr (.inl ⟨_, rfl⟩)
    · simp only [hf, Bool.false_eq_true, if_false]
      exact .inr (.inr rfl)

/-- Helper: unfolding equation for the add loop when the head step fails. -/
theorem anim_add_loop_tr_cons_err (fc : FailCfg) (d : Nat × Nat)
    (rest : List (Nat × Nat)) (i ts n n1 : Nat) (e : String) (tr1 : List Ev)
    (he : anim_encoder_add_tr fc i d ts n = (.error e, n1, tr1)) :
    anim_add_loop_tr fc (d :: rest) i ts n = (.error e, n1, tr1) := by
  unfold anim_add_loop_tr
  rw [he]

/-- Helper: unfolding equation for the add loop when the head step succeeds. -/
theorem anim_add_loop_tr_cons_ok (fc : FailCfg) (d : Nat × Nat)
    (rest : List (Nat × Nat)) (i ts n ts1 n1 : Nat) (tr1 : List Ev)
    (he : anim_encoder_add_tr fc i d ts n = (.ok ts1, n1, tr1)) :
    anim_add_loop_tr fc (d :: rest) i ts n =
      ((anim_add_loop_tr fc rest (i + 1) ts1 n1).1,
       (anim_add_loop_tr fc rest (i + 1) ts1 n1).2.1,
       tr1 ++ (anim_add_loop_tr fc rest (i + 1) ts1 n1).2.2) := by
  conv_lhs => unfold anim_add_loop_tr
  rw [he]

/-- Helper: every `animAdd` event emitted by the add loop carries the running
timestamp after the corresponding prefix of delays. -/
theorem anim_add_loop_tr_events (fc : FailCfg) (delays : List (Nat × Nat)) :
    ∀ (i ts n j tsj : Nat),
    Ev.animAdd j tsj ∈ (anim_add_loop_tr fc delays i ts n).2.2 →
    i ≤ j ∧ j - i < delays.length ∧ tsj = tsAfter ts (delays.take (j - i + 1)) := by
  induction delays with
  | nil => intro i ts n j tsj h; simp [anim_add_loop_tr] at h
  | cons d rest ih =>
    intro i ts n j tsj h
    rcases anim_encoder_add_tr_spec fc i d ts n with ⟨e, he⟩ | ⟨e, he⟩ | he
    · rw [anim_add_loop_tr_cons_err fc d rest i ts n n e [] he] at h
      simp at h
    · rw [anim_add_loop_tr_cons_err fc d rest i ts n (n + 1) e _ he] at h
      simp only [List.mem_cons, List.not_mem_nil, or_false] at h
      rcases h with h | h | h
      · exact Ev.noConfusion h
      · obtain ⟨hj, hts⟩ := Ev.animAdd.inj h
        subst hj
        subst hts
        refine ⟨le_refl _, by simp, ?_⟩
        simp [tsAfter]
      · exact Ev.noConfusion h
    · rw [anim_add_loop_tr_cons_ok fc d rest i ts n _ (n + 1) _ he] at h
      simp only [List.mem_append, List.mem_cons, List.not_mem_nil, or_false] at h
      rcases h with (h | h | h) | h
      · exact Ev.noConfusion h
      · obtain ⟨hj, hts⟩ := Ev.animAdd.inj h
        subst hj
        subst hts
        refine ⟨le_refl _, by simp, ?_⟩
        simp [tsAfter]
      · exact Ev.noConfusion h
      · obtain ⟨h1, h2, h3⟩ := ih (i + 1) ((ts + d.1 / d.2) % 2 ^ 32) (n + 1) j tsj h
        refine ⟨by omega, by simp; omega, ?_⟩
        have htake : (d :: rest).take (j - i + 1) = d :: rest.take (j - (i + 1) + 1) := by
          have h4 : j - i + 1 = (j - (i + 1) + 1) + 1 := by omega
          rw [h4, List.take_succ_cons]
        rw [htake]
        exact h3

/-- Helper: with no failure injected into the add path, the loop submits every
frame in order at the running timestamp and succeeds. -/
theorem anim_add_loop_tr_complete (fc : FailCfg) (hnf : NoAddFail fc)
    (delays : List (Nat × Nat)) :
    ∀ (i ts n : Nat),
    (anim_add_loop_tr fc delays i ts n).1 = .ok (tsAfter ts delays) ∧
    ∀ j, j < delays.length →
      Ev.animAdd (i + j) (tsAfter ts (delays.take (j + 1))) ∈
        (anim_add_loop_tr fc delays i ts n).2.2 := by
  induction delays with
  | nil => exact fun i ts n => ⟨rfl, fun j hj => absurd hj (by simp)⟩
  | cons d rest ih =>
    intro i ts n
    have h1 := hnf i
    have hadd : anim_encoder_add_tr fc i d ts n = (.ok ((ts + d.1 / d.2) % 2 ^ 32), n + 1,
        [.acquire .picture n, .animAdd i ((ts + d.1 / d.2) % 2 ^ 32),
          .teardown .picture n]) := by
      unfold anim_encoder_add_tr from_rgba_tr
      simp [h1.1, h1.2.1, h1.2.2.1, h1.2.2.2.1, h1.2.2.2.2]
    rw [anim_add_loop_tr_cons_ok fc d rest i ts n _ (n + 1) _ hadd]
    obtain ⟨ih1, ih2⟩ := ih (i + 1) ((ts + d.1 / d.2) % 2 ^ 32) (n + 1)
    constructor
    · exact ih1
    · intro j hj
      cases j with
      | zero =>
        simp only [List.mem_append]
        left
        simp [tsAfter]
      | succ j2 =>
        have hidx : i + (j2 + 1) = (i + 1) + j2 := by omega
        rw [hidx, List.take_succ_cons]
        have hj2 : j2 < rest.length := by simpa using hj
        simp only [List.mem_append]
        right
        exact ih2 j2 hj2

/-- Helper: `delaysMsSum` over a prefix is at most the whole sum. -/
theorem delaysMsSum_take_le (ds : List (Nat × Nat)) (k : Nat) :
    delaysMsSum (ds.take k) ≤ delaysMsSum ds := by
  unfold delaysMsSum
  rw [List.map_take]
  conv_rhs => rw [← List.take_append_drop k (ds.map fun d => d.1 / d.2)]
  rw [List.sum_append]
  exact Nat.le_add_right _ _

/-- Helper: when the total never wraps, the running u32 timestamp equals the
plain prefix sum. -/
theorem tsAfter_eq_sum (ds : List (Nat × Nat)) (t0 : Nat)
    (h : t0 + delaysMsSum ds < 2 ^ 32) :
    tsAfter t0 ds = t0 + delaysMsSum ds := by
  induction ds generalizing t0 with
  | nil => simp [tsAfter, delaysMsSum]
  | cons d rest ih =>
    have hsum : delaysMsSum (d :: rest) = d.1 / d.2 + delaysMsSum rest := by
      simp [delaysMsSum]
    have hstep : (t0 + d.1 / d.2) % 2 ^ 32 = t0 + d.1 / d.2 :=
      Nat.mod_eq_of_lt (by rw [hsum] at h; omega)
    show tsAfter ((t0 + d.1 / d.2) % 2 ^ 32) rest = _
    rw [hstep, ih (t0 + d.1 / d.2) (by rw [hsum] at h; omega), hsum]
    omega

/-- Helper: the `animAdd` events of `anim_encode_tr` are exactly those of the
add loop (assembly and mux emit only acquire/teardown events). -/
theorem anim_encode_tr_addEvents (fc : FailCfg) (eid : Nat) (delays : List (Nat × Nat))
    (n j tsj : Nat) :
    Ev.animAdd j tsj ∈ (anim_encode_tr fc eid delays n).2.2 ↔
      Ev.animAdd j tsj ∈ (anim_add_loop_tr fc delays 0 0 n).2.2 := by
  unfold anim_encode_tr
  rcases hl : anim_add_loop_tr fc delays 0 0 n with ⟨r, n2, tr⟩
  cases r with
  | error e => simp
  | ok ts =>
    by_cases ha : fc.assembleFail
    · simp [ha]
    · by_cases hm1 : fc.muxSetParamsFail
      · simp [ha, hm1]
      · by_cases hm2 : fc.muxAssembleFail
        · simp [ha, hm1, hm2]
        · simp [ha, hm1, hm2]

/-- Helper: the `animAdd` events of `encode_webp_anim_tr` are exactly those of
the add loop started at timestamp 0 and fresh id 1. -/
theorem encode_webp_anim_tr_addEvents (fc : FailCfg) (delays : List (Nat × Nat))
    (j tsj : Nat) :
    Ev.animAdd j tsj ∈ (encode_webp_anim_tr fc delays).2.2 ↔
      Ev.animAdd j tsj ∈ (anim_add_loop_tr fc delays 0 0 1).2.2 := by
  unfold encode_webp_anim_tr anim_new_tr
  by_cases hz : delays.length = 0
  · have : delays = [] := List.length_eq_zero.mp hz
    subst this
    simp [anim_add_loop_tr]
  · simp only [hz, if_false]
    rcases he : anim_encode_tr fc 0 delays 1 with ⟨r, n2, tr⟩
    have := anim_encode_tr_addEvents fc 0 delays 1 j tsj
    rw [he] at this
    simpa using this

/-- C7: during animated encode, for every frame taken in order the running
cumulative millisecond timestamp is incremented by that frame's rational delay
converted to integer milliseconds (floor of numer/denom, nonzero denominators)
and the frame is submitted to the animation encoder at that post-increment
timestamp: every submission event carries the prefix sum of the delays, and
with no failure injected every frame is submitted. Stated for delay sums below
the u32 wrap. -/
theorem claim7_anim_encode_timestamps (fc : FailCfg) (delays : List (Nat × Nat))
    (_hden : ∀ d ∈ delays, 0 < d.2) (hsum : delaysMsSum delays < 2 ^ 32) :
    (∀ j tsj, Ev.animAdd j tsj ∈ (encode_webp_anim_tr fc delays).2.2 →
      j < delays.length ∧ tsj = delaysMsSum (delays.take (j + 1))) ∧
    (NoAddFail fc → ∀ j, j < delays.length →
      Ev.animAdd j (delaysMsSum (delays.take (j + 1))) ∈
        (encode_webp_anim_tr fc delays).2.2) := by
  have hpre : ∀ j, tsAfter 0 (delays.take (j + 1)) = delaysMsSum (delays.take (j + 1)) := by
    intro j
    have := tsAfter_eq_sum (delays.take (j + 1)) 0
      (by have := delaysMsSum_take_le delays (j + 1); omega)
    omega
  constructor
  · intro j tsj hmem
    rw [encode_webp_anim_tr_addEvents] at hmem
    obtain ⟨h1, h2, h3⟩ := anim_add_loop_tr_events fc delays 0 0 1 j tsj hmem
    refine ⟨by omega, ?_⟩
    rw [h3]
    have : j - 0 = j := by omega
    rw [this]
    exact hpre j
  · intro hnf j hj
    rw [encode_webp_anim_tr_addEvents]
    have := (anim_add_loop_tr_complete fc hnf delays 0 0 1).2 j hj
    rw [← hpre j]
    simpa using this

/-- Witness for C7 at two concrete frames with delays 30/1 and 70/2 ms
(submission timestamps 30 and 65). -/
theorem claim7_anim_encode_timestamps_witness :
    (∀ d ∈ [((30 : Nat), (1 : Nat)), (70, 2)], 0 < d.2) ∧
    delaysMsSum [((30 : Nat), (1 : Nat)), (70, 2)] < 2 ^ 32 ∧
    Ev.animAdd 1 (delaysMsSum ([((30 : Nat), (1 : Nat)), (70, 2)].take 2)) ∈
      (encode_webp_anim_tr fcNone [((30 : Nat), (1 : Nat)), (70, 2)]).2.2 :=
  ⟨by decide, by decide,
    (claim7_anim_encode_timestamps fcNone [(30, 1), (70, 2)] (by decide) (by decide)).2
      (fun i => ⟨rfl, rfl, rfl, rfl, rfl⟩) 1 (by decide)⟩

/-! ### Resource-balance lemmas for the codec-adapter traces -/

/-- Helper: `acquiresOf` distributes over append. -/
theorem acquiresOf_append (t1 t2 : List Ev) :
    acquiresOf (t1 ++ t2) = acquiresOf t1 ++ acquiresOf t2 :=
  List.filterMap_append t1 t2 _

/-- Helper: `teardownsOf` distributes over append. -/
theorem teardownsOf_append (t1 t2 : List Ev) :
    teardownsOf (t1 ++ t2) = teardownsOf t1 ++ teardownsOf t2 :=
  List.filterMap_append t1 t2 _

/-- Helper: the empty trace is a balanced segment. -/
theorem segOK_nil (n : Nat) : SegOK n n [] :=
  ⟨le_refl n, List.Perm.refl _, List.nodup_nil, fun p hp => absurd hp (by simp [acquiresOf]),
    fun p hp => absurd hp (by simp [teardownsOf])⟩

/-- Helper: the per-frame picture segment of the animated add path is balanced
and consumes exactly one fresh id. -/
theorem segOK_pic (i ts n : Nat) :
    SegOK n (n + 1) [.acquire .picture n, .animAdd i ts, .teardown .picture n] := by
  refine ⟨by omega, ?_, ?_, ?_, ?_⟩
  · show [(ResKind.picture, n)].Perm [(ResKind.picture, n)]
    exact List.Perm.refl _
  · show List.Nodup [(ResKind.picture, n)]
    simp
  · intro p hp
    simp only [acquiresOf, List.filterMap] at hp
    simp at hp
    subst hp
    omega
  · intro p hp
    simp only [teardownsOf, List.filterMap] at hp
    simp at hp
    subst hp
    omega

/-- Helper: balanced segments over adjacent id ranges compose. -/
theorem SegOK.append {lo mid hi : Nat} {t1 t2 : List Ev}
    (h1 : SegOK lo mid t1) (h2 : SegOK mid hi t2) : SegOK lo hi (t1 ++ t2) := by
  obtain ⟨hle1, hp1, hn1, ha1, ht1⟩ := h1
  obtain ⟨hle2, hp2, hn2, ha2, ht2⟩ := h2
  refine ⟨by omega, ?_, ?_, ?_, ?_⟩
  · rw [acquiresOf_append, teardownsOf_append]
    exact hp1.append hp2
  · rw [acquiresOf_append]
    refine List.Nodup.append hn1 hn2 ?_
    intro p hpa hpb
    have hA := ha1 p hpa
    have hB := ha2 p hpb
    omega
  · intro p hp
    rw [acquiresOf_append] at hp
    rcases List.mem_append.mp hp with h | h
    · have := ha1 p h
      exact ⟨this.1, by omega⟩
    · have := ha2 p h
      exact ⟨by omega, this.2⟩
  · intro p hp
    rw [teardownsOf_append] at hp
    rcases List.mem_append.mp hp with h | h
    · have := ht1 p h
      exact ⟨this.1, by omega⟩
    · have := ht2 p h
      exact ⟨by omega, this.2⟩

/-- Helper: the add loop is a balanced segment over the ids it consumes. -/
theorem anim_add_loop_tr_seg (fc : FailCfg) (delays : List (Nat × Nat)) :
    ∀ i ts n,
      n ≤ (anim_add_loop_tr fc delays i ts n).2.1 ∧
      SegOK n (anim_add_loop_tr fc delays i ts n).2.1
        (anim_add_loop_tr fc delays i ts n).2.2 := by
  induction delays with
  | nil => intro i ts n; exact ⟨le_refl n, segOK_nil n⟩
  | cons d rest ih =>
    intro i ts n
    rcases anim_encoder_add_tr_spec fc i d ts n with ⟨e, he⟩ | ⟨e, he⟩ | he
    · rw [anim_add_loop_tr_cons_err fc d rest i ts n n e [] he]
      exact ⟨le_refl n, segOK_nil n⟩
    · rw [anim_add_loop_tr_cons_err fc d rest i ts n (n + 1) e _ he]
      exact ⟨Nat.le_succ n, segOK_pic i _ n⟩
    · rw [anim_add_loop_tr_cons_ok fc d rest i ts n _ (n + 1) _ he]
      obtain ⟨hle, hseg⟩ := ih (i + 1) ((ts + d.1 / d.2) % 2 ^ 32) (n + 1)
      exact ⟨le_trans (Nat.le_succ n) hle, SegOK.append (segOK_pic i _ n) hseg⟩

/-- Helper: unfolding equation for `anim_encode_tr` when the add loop fails. -/
theorem anim_encode_tr_eq_err (fc : FailCfg) (eid : Nat) (delays : List (Nat × Nat))
    (n : Nat) (e : String) (n1 : Nat) (trL : List Ev)
    (hl : anim_add_loop_tr fc delays 0 0 n = (.error e, n1, trL)) :
    anim_encode_tr fc eid delays n =
      (.error e, n1, trL ++ [.teardown .animEncoder eid]) := by
  conv_lhs => unfold anim_encode_tr
  rw [hl]

/-- Helper: unfolding equation for `anim_encode_tr` when the add loop
succeeds. -/
theorem anim_encode_tr_eq_ok (fc : FailCfg) (eid : Nat) (delays : List (Nat × Nat))
    (n ts n1 : Nat) (trL : List Ev)
    (hl : anim_add_loop_tr fc delays 0 0 n = (.ok ts, n1, trL)) :
    anim_encode_tr fc eid delays n =
      if fc.assembleFail then
        (.error "Webp Anim Assemble failed: 0", n1, trL ++ [.teardown .animEncoder eid])
      else
        ((if fc.muxSetParamsFail then .error "mux err"
          else if fc.muxAssembleFail then .error "mux err" else .ok ()),
         n1 + 2,
         (trL ++ [.acquire .webpData n1, .acquire .mux (n1 + 1)]) ++
           [.teardown .mux (n1 + 1), .teardown .webpData n1,
             .teardown .animEncoder eid]) := by
  conv_lhs => unfold anim_encode_tr
  rw [hl]
  by_cases ha : fc.assembleFail
  · simp [ha]
  · by_cases h1 : fc.muxSetParamsFail
    · simp [ha, h1]
    · by_cases h2 : fc.muxAssembleFail <;> simp [ha, h1, h2]

/-- Helper: `anim_encode_tr` tears the encoder `eid` down exactly once on every
path, balances everything it acquires itself, and acquires only fresh ids. -/
theorem anim_encode_tr_balance (fc : FailCfg) (eid : Nat) (delays : List (Nat × Nat))
    (n : Nat) :
    (acquiresOf (anim_encode_tr fc eid delays n).2.2 ++ [(ResKind.animEncoder, eid)]).Perm
      (teardownsOf (anim_encode_tr fc eid delays n).2.2) ∧
    (acquiresOf (anim_encode_tr fc eid delays n).2.2).Nodup ∧
    (∀ p ∈ acquiresOf (anim_encode_tr fc eid delays n).2.2, n ≤ p.2) := by
  obtain ⟨hle, hseg⟩ := anim_add_loop_tr_seg fc delays 0 0 n
  rcases hl : anim_add_loop_tr fc delays 0 0 n with ⟨r, n1, trL⟩
  rw [hl] at hle hseg
  have hseg2 : SegOK n n1 trL := hseg
  obtain ⟨hlo, hperm, hnodup, hacq, htd⟩ := hseg2
  cases r with
  | error e =>
    rw [anim_encode_tr_eq_err fc eid delays n e n1 trL hl]
    simp only [acquiresOf_append, teardownsOf_append]
    refine ⟨?_, ?_, ?_⟩
    · show (acquiresOf trL ++ [] ++ [(ResKind.animEncoder, eid)]).Perm
        (teardownsOf trL ++ [(ResKind.animEncoder, eid)])
      simp only [List.append_nil]
      exact hperm.append_right _
    · show (acquiresOf trL ++ []).Nodup
      simpa using hnodup
    · intro p hp
      simp only [List.mem_append] at hp
      rcases hp with h | h
      · exact (hacq p h).1
      · exact absurd h (by simp [acquiresOf])
  | ok ts =>
    rw [anim_encode_tr_eq_ok fc eid delays n ts n1 trL hl]
    by_cases ha : fc.assembleFail
    · rw [if_pos ha]
      simp only [acquiresOf_append, teardownsOf_append]
      refine ⟨?_, ?_, ?_⟩
      · show (acquiresOf trL ++ [] ++ [(ResKind.animEncoder, eid)]).Perm
          (teardownsOf trL ++ [(ResKind.animEncoder, eid)])
        simp only [List.append_nil]
        exact hperm.append_right _
      · show (acquiresOf trL ++ []).Nodup
        simpa using hnodup
      · intro p hp
        simp only [List.mem_append] at hp
        rcases hp with h | h
        · exact (hacq p h).1
        · exact absurd h (by simp [acquiresOf])
    · rw [if_neg ha]
      simp only [acquiresOf_append, teardownsOf_append]
      have hacqlit : acquiresOf [Ev.acquire .webpData n1, Ev.acquire .mux (n1 + 1)] =
          [(ResKind.webpData, n1), (ResKind.mux, n1 + 1)] := rfl
      have htdlit : teardownsOf [Ev.teardown .mux (n1 + 1), Ev.teardown .webpData n1,
          Ev.teardown .animEncoder eid] =
          [(ResKind.mux, n1 + 1), (ResKind.webpData, n1), (ResKind.animEncoder, eid)] := rfl
      have hacqlit2 : acquiresOf [Ev.teardown .mux (n1 + 1), Ev.teardown .webpData n1,
          Ev.teardown .animEncoder eid] = [] := rfl
      have htdlit2 : teardownsOf [Ev.acquire .webpData n1, Ev.acquire .mux (n1 + 1)] =
          [] := rfl
      rw [hacqlit, htdlit, hacqlit2, htdlit2]
      refine ⟨?_, ?_, ?_⟩
      · simp only [List.append_nil]
        have htail : ([(ResKind.webpData, n1), (ResKind.mux, n1 + 1)] ++
            [(ResKind.animEncoder, eid)]).Perm
            ([(ResKind.mux, n1 + 1), (ResKind.webpData, n1), (ResKind.animEncoder, eid)]) :=
          List.Perm.swap _ _ _
        have hassoc : acquiresOf trL ++ [(ResKind.webpData, n1), (ResKind.mux, n1 + 1)] ++
            [(ResKind.animEncoder, eid)] =
            acquiresOf trL ++ ([(ResKind.webpData, n1), (ResKind.mux, n1 + 1)] ++
              [(ResKind.animEncoder, eid)]) := by simp
        rw [hassoc]
        exact hperm.append htail
      · simp only [List.append_nil]
        refine List.Nodup.append hnodup (by simp) ?_
        intro p hpa hpb
        have hA := hacq p hpa
        simp only [List.mem_cons, List.not_mem_nil, or_false] at hpb
        rcases hpb with h | h <;> subst h <;> simp at hA
      · intro p hp
        simp only [List.append_nil, List.mem_append] at hp
        rcases hp with h | h
        · exact (hacq p h).1
        · simp only [List.mem_cons, List.not_mem_nil, or_false] at h
          rcases h with h | h <;> subst h <;> omega

/-- Helper: unfolding equation for `encode_webp_anim_tr` on nonempty input. -/
theorem encode_webp_anim_tr_eq (fc : FailCfg) (delays : List (Nat × Nat))
    (hz : delays.length ≠ 0) :
    encode_webp_anim_tr fc delays =
      ((anim_encode_tr fc 0 delays 1).1, (anim_encode_tr fc 0 delays 1).2.1,
        .acquire .animEncoder 0 :: (anim_encode_tr fc 0 delays 1).2.2) := by
  conv_lhs => unfold encode_webp_anim_tr anim_new_tr
  simp [hz]

/-- Helper: the whole animated-encode trace is balanced, for every failure
injection. -/
theorem encode_webp_anim_tr_balance (fc : FailCfg) (delays : List (Nat × Nat)) :
    TornExactlyOnce (encode_webp_anim_tr fc delays).2.2 := by
  by_cases hz : delays.length = 0
  · have hnil : delays = [] := List.length_eq_zero.mp hz
    subst hnil
    exact ⟨List.Perm.refl _, List.nodup_nil⟩
  · rw [encode_webp_anim_tr_eq fc delays hz]
    obtain ⟨hperm, hnodup, hrange⟩ := anim_encode_tr_balance fc 0 delays 1
    constructor
    · show ((ResKind.animEncoder, 0) ::
        acquiresOf (anim_encode_tr fc 0 delays 1).2.2).Perm
        (teardownsOf (anim_encode_tr fc 0 delays 1).2.2)
      exact (List.perm_append_singleton _ _).symm.trans hperm
    · show ((ResKind.animEncoder, 0) ::
        acquiresOf (anim_encode_tr fc 0 delays 1).2.2).Nodup
      refine List.Nodup.cons ?_ hnodup
      intro hmem
      have := hrange _ hmem
      omega

/-- Helper: the single-image encode trace is balanced, for every failure
injection. -/
theorem encode_webp_image_tr_balance (fc : FailCfg) :
    TornExactlyOnce (encode_webp_image_tr fc).2.2 := by
  unfold encode_webp_image_tr
  rcases from_rgba_tr_spec fc 0 0 with ⟨e, he⟩ | he <;> rw [he]
  · exact ⟨List.Perm.refl _, List.nodup_nil⟩
  · unfold pic_encode_tr
    by_cases hf : fc.encodeFail
    · simp only [hf, if_true]
      exact ⟨by decide, by decide⟩
    · simp only [hf, Bool.false_eq_true, if_false]
      exact ⟨by decide, by decide⟩

/-- Helper: the animated-decode trace is balanced, for every failure
injection. -/
theorem decode_webp_anim_tr_balance (fc : FailCfg) :
    TornExactlyOnce (decode_webp_anim_tr fc).2.2 := by
  unfold decode_webp_anim_tr anim_decoder_new_tr
  by_cases h1 : fc.decOptInitFail
  · simp only [h1, if_true]
    exact ⟨List.Perm.refl _, List.nodup_nil⟩
  · by_cases h2 : fc.decNewNull
    · simp only [h1, h2, Bool.false_eq_true, if_false, if_true]
      exact ⟨List.Perm.refl _, List.nodup_nil⟩
    · simp only [h1, h2, Bool.false_eq_true, if_false]
      exact ⟨by decide, by decide⟩

/-- C3: across the codec adapter's encode/decode call paths — single-image
encode, animated encode (frames/delays arbitrary), animated decode — and for
every failure injection at any intermediate native step, every acquired
wrapper (memory writer, picture, animation encoder, container data buffer, mux
handle, animation decoder) is torn down exactly once: the teardown events are
a permutation of the acquire events and no handle is acquired twice, so the
teardown count of already-acquired resources is independent of where a failure
occurs. -/
theorem claim3_teardown_exactly_once (fc : FailCfg) (delays : List (Nat × Nat)) :
    TornExactlyOnce (encode_webp_image_tr fc).2.2 ∧
    TornExactlyOnce (encode_webp_anim_tr fc delays).2.2 ∧
    TornExactlyOnce (decode_webp_anim_tr fc).2.2 :=
  ⟨encode_webp_image_tr_balance fc, encode_webp_anim_tr_balance fc delays,
    decode_webp_anim_tr_balance fc⟩

end MWProxy
